import Mathlib

/-!
Verification of the chess core of `ChessBevyRefactor` (src/board.rs,
src/piece.rs, src/display.rs) against its specification.

The Rust data model and operations are shallowly embedded below.  Machine
integers (`usize`, `isize`) are modelled by `Nat` and `Int`; a fallible
conversion (`usize::try_from` on a possibly negative `isize`) is modelled by
`Option Nat`, and a Rust panic (a failing `.unwrap()`) is propagated as
`Option.none` through the enclosing function.
-/

/-- `BOARD_SIZE` from src/display.rs. -/
def BOARD_SIZE : Nat := 8

/-- `Player` from src/board.rs. -/
inductive Player where
  | White
  | Black
deriving DecidableEq, Repr

/-- `TilePos` from src/board.rs: a (file, rank) pair of `usize`. -/
structure TilePos where
  file : Nat
  rank : Nat
deriving DecidableEq, Repr

/-- `PieceMove` from src/piece.rs. -/
structure PieceMove where
  from_pos : TilePos
  to_pos : TilePos
deriving DecidableEq, Repr

/-- `Piece` from src/piece.rs: 13 variants with explicit discriminants. -/
inductive Piece where
  | None
  | WQueen
  | WKing
  | WRook
  | WKnight
  | WBishop
  | WPawn
  | BQueen
  | BKing
  | BRook
  | BKnight
  | BBishop
  | BPawn
deriving DecidableEq, Repr

/-- The explicit discriminant of each `Piece` variant (the `as u8` / `as usize`
cast of the Rust enum). -/
def pieceDiscriminant : Piece → Nat
  | .None => 0
  | .WQueen => 1
  | .WKing => 2
  | .WRook => 3
  | .WKnight => 4
  | .WBishop => 5
  | .WPawn => 6
  | .BQueen => 9
  | .BKing => 10
  | .BRook => 11
  | .BKnight => 12
  | .BBishop => 13
  | .BPawn => 14

/-- `Piece::is_white` from src/piece.rs:
`((self as u8 >> 3) & 1) == 0 && self != Piece::None`. -/
def Piece.is_white (p : Piece) : Bool :=
  ((pieceDiscriminant p >>> 3) &&& 1 == 0) && !(p == Piece.None)

/-- `Piece::is_black` from src/piece.rs: `((self as u8 >> 3) & 1) == 1`. -/
def Piece.is_black (p : Piece) : Bool :=
  (pieceDiscriminant p >>> 3) &&& 1 == 1

/-- `From<Piece> for usize` from src/piece.rs:
`value as usize - 1 - 2 * (value.is_black() as usize)`.
The `usize` subtraction is modelled as checked: a result of `none` marks the
underflow of `0 - 1` (a panic in a debug build), which happens exactly for
`Piece::None`. -/
def pieceToUsize (p : Piece) : Option Nat :=
  let v := pieceDiscriminant p
  let s := 1 + 2 * (if p.is_black then 1 else 0)
  if v < s then none else some (v - s)

/-- `From<usize> for Piece` from src/piece.rs. -/
def usizeToPiece (v : Nat) : Piece :=
  match v with
  | 0 => Piece.WQueen
  | 1 => Piece.WKing
  | 2 => Piece.WRook
  | 3 => Piece.WKnight
  | 4 => Piece.WBishop
  | 5 => Piece.WPawn
  | 6 => Piece.BQueen
  | 7 => Piece.BKing
  | 8 => Piece.BRook
  | 9 => Piece.BKnight
  | 10 => Piece.BBishop
  | 11 => Piece.BPawn
  | _ => Piece.None

/-- `Piece::from_algebraic` from src/piece.rs. -/
def Piece.from_algebraic (c : Char) : Option Piece :=
  if c = '-' then some Piece.None
  else if c = 'P' then some Piece.WPawn
  else if c = 'N' then some Piece.WKnight
  else if c = 'B' then some Piece.WBishop
  else if c = 'R' then some Piece.WRook
  else if c = 'Q' then some Piece.WQueen
  else if c = 'K' then some Piece.WKing
  else if c = 'p' then some Piece.BPawn
  else if c = 'n' then some Piece.BKnight
  else if c = 'b' then some Piece.BBishop
  else if c = 'r' then some Piece.BRook
  else if c = 'q' then some Piece.BQueen
  else if c = 'k' then some Piece.BKing
  else none

/-- Modelled from the spec: `Piece::to_player` (used by src/board.rs but not
defined under src/). Spec section 2: color is recoverable from a single bit of
the value; `Piece::None` ("no-piece") has no player, so the result is an
`Option Player`, `none` exactly for the empty piece. -/
def Piece.to_player (p : Piece) : Option Player :=
  if p.is_white then some Player.White
  else if p.is_black then some Player.Black
  else none

/-- Modelled from the spec: the constant `PIECES` (imported by src/board.rs
from src/piece.rs but not defined under src/).  Spec section 4.2: `get_piece`
scans "the 12 variants in a fixed order"; the order chosen here follows the
numeric encoding of the variants. -/
def PIECES : List Piece :=
  [Piece.WQueen, Piece.WKing, Piece.WRook, Piece.WKnight, Piece.WBishop,
   Piece.WPawn, Piece.BQueen, Piece.BKing, Piece.BRook, Piece.BKnight,
   Piece.BBishop, Piece.BPawn]

/-- Modelled from the spec: `BitBoards` (src/bitboard.rs is not under src/).
Spec section 3: one fixed-size set of booleans per piece kind, indexed by
coordinate, queryable and mutable by coordinate.  The aggregate is modelled
extensionally as a function from the indexing piece and the coordinate to the
bit. -/
def BitBoards : Type := Piece → TilePos → Bool

/-- Modelled from the spec: `BitBoards::set_bit_at` on the set selected by
`p` (spec section 3: each set is "mutable by coordinate"). -/
def BitBoards.set_bit_at (bb : BitBoards) (p : Piece) (t : TilePos) (v : Bool) :
    BitBoards :=
  fun q u => if q = p ∧ u = t then v else bb q u

/-- Modelled from the spec: `BitBoards::get_bit_at` on the set selected by
`p`. -/
def BitBoards.get_bit_at (bb : BitBoards) (p : Piece) (t : TilePos) : Bool :=
  bb p t

/-- Modelled from the spec: the all-empty `BitBoards::default()`. -/
def BitBoards.default : BitBoards := fun _ _ => false

/-- `Board` from src/board.rs.  `Entity` (an opaque handle of the rendering
layer) is modelled as `Nat`; the `entities` array is modelled as a function of
the coordinate.  `PieceMoveHistory` (src/piece_move.rs is not under src/) is
modelled from the spec (section 3: "an ordered, append-only move history") as
a list of moves. -/
structure Board where
  positions : BitBoards
  player : Player
  castling_rights : (Bool × Bool) × (Bool × Bool)
  en_passant_on_last_move : Option TilePos
  half_move_counter : Nat
  full_move_counter : Nat
  entities : TilePos → Option Nat
  move_history : List PieceMove

/-- `Board::get_piece` from src/board.rs: return the first piece of `PIECES`
whose occupancy bit at `tile_pos` is set, else `Piece::None`. -/
def Board.get_piece (b : Board) (tile_pos : TilePos) : Piece :=
  match PIECES.find? (fun piece => BitBoards.get_bit_at b.positions piece tile_pos) with
  | some piece => piece
  | none => Piece.None

/-- `Board::set_piece` from src/board.rs: for every piece of `PIECES`, set its
bit at `tile_pos` to whether it equals `piece` (clearing all other sets). -/
def Board.set_piece (b : Board) (tile_pos : TilePos) (piece : Piece) : Board :=
  { b with
    positions :=
      PIECES.foldl
        (fun bb piece_i => BitBoards.set_bit_at bb piece_i tile_pos (piece_i == piece))
        b.positions }

/-- `Board::get_entity` from src/board.rs. -/
def Board.get_entity (b : Board) (tile_pos : TilePos) : Option Nat :=
  b.entities tile_pos

/-- `Board::set_entity` from src/board.rs. -/
def Board.set_entity (b : Board) (tile_pos : TilePos) (entity : Option Nat) :
    Board :=
  { b with entities := fun u => if u = tile_pos then entity else b.entities u }

/-- `Board::move_piece` from src/board.rs: read the piece at `from`, clear
`from`, write it to `to`; then do the same for the entity handle.  The
commented-out en-passant reset in the source is (faithfully) absent. -/
def Board.move_piece (b : Board) (piece_move : PieceMove) : Board :=
  let moved_piece := b.get_piece piece_move.from_pos
  let b1 := b.set_piece piece_move.from_pos Piece.None
  let b2 := b1.set_piece piece_move.to_pos moved_piece
  let moved_entity := b2.get_entity piece_move.from_pos
  let b3 := b2.set_entity piece_move.from_pos none
  b3.set_entity piece_move.to_pos moved_entity

/-- The parse errors of `Board::from_fen` (src/board.rs).  The Rust code
reports them as formatted strings; each variant here carries exactly the
offending character(s) that the corresponding message embeds. -/
inductive FenError where
  | invalidPiece (c : Char)
  | invalidPlayer (c : Char)
  | invalidCastling (c : Char)
  | invalidEnPassant (c0 c1 : Char)
deriving DecidableEq, Repr

/-- The board `Board::from_fen` starts from (src/board.rs lines 100-109). -/
def initial_board : Board :=
  { positions := BitBoards.default
    player := Player.White
    castling_rights := ((false, false), (false, false))
    en_passant_on_last_move := none
    half_move_counter := 0
    full_move_counter := 1
    entities := fun _ => none
    move_history := [] }

/-- The loop body of `Board::from_fen` (src/board.rs lines 111-177), one step
per character.  `fen` is the whole character list (needed by section 3, which
re-reads the string from an index); the remaining input carries each
character's index as produced by `char_indices` (byte index in Rust; for the
ASCII strings FEN uses, byte and character indices coincide).  State:
`section_index`, `rank` and `file` cursors, and the board under construction.
A Rust `return Err(..)` is `Except.error`; the `_ => break` arm for
`section_index >= 4` stops and returns the board. -/
def from_fen_go (fen : List Char) :
    List (Nat × Char) → Board → Nat → Nat → Nat → Except FenError Board
  | [], board, _, _, _ => Except.ok board
  | (i, c) :: rest, board, section_index, rank, file =>
    if section_index = 0 then
      -- Read positions from FEN
      if c = '/' then
        from_fen_go fen rest board 0 0 (file + 1)
      else if '1' ≤ c ∧ c ≤ '8' then
        from_fen_go fen rest board 0 (rank + (c.toNat - '0'.toNat)) file
      else if c = ' ' then
        from_fen_go fen rest board 1 rank file
      else
        match Piece.from_algebraic c with
        | some piece =>
          let tile_pos := TilePos.mk (BOARD_SIZE - 1 - file) rank
          let b1 := board.set_piece tile_pos piece
          let b2 := { b1 with
            positions := BitBoards.set_bit_at b1.positions piece tile_pos true }
          from_fen_go fen rest b2 0 (rank + 1) file
        | none => Except.error (FenError.invalidPiece c)
    else if section_index = 1 then
      -- Read the current player's turn from FEN
      if c = 'w' then
        from_fen_go fen rest { board with player := Player.White } 1 rank file
      else if c = 'b' then
        from_fen_go fen rest { board with player := Player.Black } 1 rank file
      else if c = ' ' then
        from_fen_go fen rest board 2 rank file
      else Except.error (FenError.invalidPlayer c)
    else if section_index = 2 then
      -- Read the castling rights from FEN
      if c = 'K' then
        let cr := ((true, board.castling_rights.1.2), board.castling_rights.2)
        from_fen_go fen rest { board with castling_rights := cr } 2 rank file
      else if c = 'Q' then
        let cr := ((board.castling_rights.1.1, true), board.castling_rights.2)
        from_fen_go fen rest { board with castling_rights := cr } 2 rank file
      else if c = 'k' then
        let cr := (board.castling_rights.1, (true, board.castling_rights.2.2))
        from_fen_go fen rest { board with castling_rights := cr } 2 rank file
      else if c = 'q' then
        let cr := (board.castling_rights.1, (board.castling_rights.2.1, true))
        from_fen_go fen rest { board with castling_rights := cr } 2 rank file
      else if c = '-' then
        let cr := ((false, false), (false, false))
        from_fen_go fen rest { board with castling_rights := cr } 2 rank file
      else if c = ' ' then
        from_fen_go fen rest board 3 rank file
      else Except.error (FenError.invalidCastling c)
    else if section_index = 3 then
      -- Reached the en passant part of FEN
      if c = '-' then
        from_fen_go fen rest { board with en_passant_on_last_move := none }
          3 rank file
      else if c = ' ' then
        from_fen_go fen rest board 4 rank file
      else
        -- `fen.chars().skip(chr_index - 1).take(2)`: the two characters at
        -- positions i - 1 and i (the PREVIOUS character and the current one).
        let algebraic_en_passant := (fen.drop (i - 1)).take 2
        -- The Rust `Vec` indexing `[0]`/`[1]` always finds two characters
        -- here (position i exists, so positions i-1 and i both do); the
        -- default of `getD` is never used.
        let c0 := algebraic_en_passant.getD 0 ' '
        let c1 := algebraic_en_passant.getD 1 ' '
        if ('a' ≤ c0 ∧ c0 ≤ 'h') ∧ ('0' ≤ c1 ∧ c1 ≤ '8') then
          let target := TilePos.mk (c0.toNat - 'a'.toNat) (c1.toNat - '0'.toNat)
          from_fen_go fen rest
            { board with en_passant_on_last_move := some target } 3 rank file
        else Except.error (FenError.invalidEnPassant c0 c1)
    else Except.ok board

/-- `Board::from_fen` from src/board.rs. -/
def from_fen (fen_string : String) : Except FenError Board :=
  from_fen_go fen_string.toList fen_string.toList.enum initial_board 0 0 0

/-- A coordinate is on the board when both components are below
`BOARD_SIZE` (spec section 3). -/
def on_board (t : TilePos) : Prop := t.file < BOARD_SIZE ∧ t.rank < BOARD_SIZE

instance (t : TilePos) : Decidable (on_board t) := by
  unfold on_board; infer_instance

/-- `usize::try_from` on an `isize`: succeeds exactly on nonnegative values.
A failing `.unwrap()` of the result is a panic, modelled as `none` propagated
through the calling function. -/
def usize_try_from (z : Int) : Option Nat :=
  if 0 ≤ z then some z.toNat else none

/-- `Board::get_vertical_dir` from src/board.rs:
`isize::from(piece.is_white()) * 2 - 1`. -/
def get_vertical_dir (piece : Piece) : Int :=
  (if piece.is_white then 1 else 0) * 2 - 1

/-- `Board::double_pawn_move_check` from src/board.rs. -/
def double_pawn_move_check (piece : Piece) (from_pos : TilePos) : Prop :=
  (piece.is_white = true ∧ from_pos.file = 1) ∨
  (piece.is_black = true ∧ from_pos.file = BOARD_SIZE - 2)

instance (piece : Piece) (from_pos : TilePos) :
    Decidable (double_pawn_move_check piece from_pos) := by
  unfold double_pawn_move_check; infer_instance

/-- The player test of the pawn diagonal-capture push (src/board.rs lines
403-408): the two nested `if let Some(..)` plus the inequality — both the
moving piece and the piece on the candidate square resolve to a player, and
the players differ. -/
def pawn_capture_players (piece captured : Piece) : Prop :=
  piece.to_player.isSome = true ∧ captured.to_player.isSome = true ∧
  piece.to_player ≠ captured.to_player

instance (piece captured : Piece) :
    Decidable (pawn_capture_players piece captured) := by
  unfold pawn_capture_players; infer_instance

/-- One iteration (`k = -1` or `k = 1`) of the diagonal-captures loop of
`Board::get_pawn_moves` (src/board.rs lines 394-411).  `nv` is
`new_vertical_pos` (already known to be in `(0, BOARD_SIZE)`), `nh` is
`new_horizontal_pos = rank_isize + k`.  Faithful to the source, the
coordinate is built from `usize::try_from(..).unwrap()` BEFORE the range
check on `nh`, so a negative `nh` is a panic (`none`). -/
def pawn_diag_capture (b : Board) (piece : Piece) (nv nh : Int) :
    Option (List TilePos) :=
  match usize_try_from nv, usize_try_from nh with
  | some f, some r =>
    let new_pos := TilePos.mk f r
    some (if 0 < nh ∧ nh < (BOARD_SIZE : Int) then
            match piece.to_player, (b.get_piece new_pos).to_player with
            | some player, some captured_player =>
              if player = captured_player then [] else [new_pos]
            | _, _ => []
          else [])
  | _, _ => none

/-- The "Single Move Vertically and Diagonal Captures" block of
`Board::get_pawn_moves` (src/board.rs lines 382-412): guarded by
`0 < file + dir < BOARD_SIZE` (strictly above 0), push the forward square if
empty, then run the two diagonal-capture iterations (`k = -1` first). -/
def pawn_forward_block (b : Board) (src : TilePos) (piece : Piece) (dir : Int) :
    Option (List TilePos) :=
  let new_vertical_pos : Int := (src.file : Int) + dir
  if 0 < new_vertical_pos ∧ new_vertical_pos < (BOARD_SIZE : Int) then
    match usize_try_from new_vertical_pos with
    | some f =>
      let new_pos := TilePos.mk f src.rank
      let single := if b.get_piece new_pos = Piece.None then [new_pos] else []
      match pawn_diag_capture b piece new_vertical_pos ((src.rank : Int) - 1),
            pawn_diag_capture b piece new_vertical_pos ((src.rank : Int) + 1) with
      | some d1, some d2 => some (single ++ (d1 ++ d2))
      | _, _ => none
    | none => none
  else some []

/-- The en-passant block of `Board::get_pawn_moves` (src/board.rs lines
414-423): if a target is set and `file_diff.abs() == 1 &&
rank_diff.abs() == vertical_dir`, push the target. -/
def pawn_en_passant (b : Board) (src : TilePos) (dir : Int) : List TilePos :=
  match b.en_passant_on_last_move with
  | none => []
  | some passant_tile =>
    let file_diff : Int := (passant_tile.file : Int) - (src.file : Int)
    let rank_diff : Int := (passant_tile.rank : Int) - (src.rank : Int)
    if |file_diff| = 1 ∧ |rank_diff| = dir then [passant_tile] else []

/-- The "Double Vertical Move" block of `Board::get_pawn_moves` (src/board.rs
lines 425-443): gated on `double_pawn_move_check`, push
`(file + 2 * dir, rank)` if that square is empty.  Only the destination square
is tested for emptiness. -/
def pawn_double (b : Board) (src : TilePos) (piece : Piece) (dir : Int) :
    Option (List TilePos) :=
  if double_pawn_move_check piece src then
    match usize_try_from ((src.file : Int) + 2 * dir) with
    | some f =>
      let new_pos := TilePos.mk f src.rank
      some (if b.get_piece new_pos = Piece.None then [new_pos] else [])
    | none => none
  else some []

/-- `Board::get_pawn_moves` from src/board.rs: the three blocks in source
order (forward/diagonal, en passant, double move), with a panic in any block
propagated as `none`. -/
def get_pawn_moves (b : Board) (src : TilePos) : Option (List TilePos) :=
  let piece := b.get_piece src
  let vertical_dir := get_vertical_dir piece
  match pawn_forward_block b src piece vertical_dir with
  | none => none
  | some fwd =>
    match pawn_double b src piece vertical_dir with
    | none => none
    | some dbl => some (fwd ++ pawn_en_passant b src vertical_dir ++ dbl)

/-- The inner loop of `Board::get_moves_in_dir` (src/board.rs lines 251-278)
for one direction, over the remaining step counts (`for k in 1..8`).  At each
step: if the stepped coordinate is off-board, continue with the next `k`
(the source does not break there); if it holds a piece, push it only when it
belongs to the other player and stop (`break`); if empty, push and continue.
The `usize::try_from(..).unwrap()` conversions sit inside the on-board check
and cannot fail, so they are modelled by `Int.toNat`.  The source re-reads
`self.get_piece(from)` on every iteration; it never changes. -/
def dir_loop (b : Board) (from_pos : TilePos) (dir : Int × Int) :
    List Nat → List TilePos
  | [] => []
  | k :: ks =>
    let new_file : Int := (from_pos.file : Int) + dir.1 * (k : Int)
    let new_rank : Int := (from_pos.rank : Int) + dir.2 * (k : Int)
    if 0 ≤ new_file ∧ new_file < (BOARD_SIZE : Int) ∧
        0 ≤ new_rank ∧ new_rank < (BOARD_SIZE : Int) then
      let new_pos := TilePos.mk new_file.toNat new_rank.toNat
      let captured_piece := b.get_piece new_pos
      if captured_piece ≠ Piece.None then
        if captured_piece.to_player ≠ (b.get_piece from_pos).to_player then
          [new_pos]
        else []
      else new_pos :: dir_loop b from_pos dir ks
    else dir_loop b from_pos dir ks

/-- The body of `Board::get_moves_in_dir` for a single direction: the `k`
loop runs over `1..BOARD_SIZE` exclusive, i.e. steps 1 to 7. -/
def moves_in_one_dir (b : Board) (from_pos : TilePos) (dir : Int × Int) :
    List TilePos :=
  dir_loop b from_pos dir (List.range' 1 (BOARD_SIZE - 1))

/-- `Board::get_moves_in_dir` from src/board.rs: accumulate the per-direction
results in direction order. -/
def get_moves_in_dir (b : Board) (from_pos : TilePos)
    (dirs : List (Int × Int)) : List TilePos :=
  (dirs.map (fun dir => moves_in_one_dir b from_pos dir)).flatten

/-- `Board::get_orthogonal_moves` from src/board.rs. -/
def get_orthogonal_moves (b : Board) (from_pos : TilePos) : List TilePos :=
  get_moves_in_dir b from_pos [(1, 0), (0, 1), (-1, 0), (0, -1)]

/-- `Board::get_diagonal_moves` from src/board.rs. -/
def get_diagonal_moves (b : Board) (from_pos : TilePos) : List TilePos :=
  get_moves_in_dir b from_pos [(1, 1), (1, -1), (-1, 1), (-1, -1)]

/-- `Board::get_ortho_diagonal_moves` from src/board.rs: the concatenation of
the orthogonal and the diagonal results. -/
def get_ortho_diagonal_moves (b : Board) (from_pos : TilePos) : List TilePos :=
  get_orthogonal_moves b from_pos ++ get_diagonal_moves b from_pos

/-- The file component of the square `k` steps from `src` along `d`. -/
def ray_file (src : TilePos) (d : Int × Int) (k : Nat) : Int :=
  (src.file : Int) + d.1 * (k : Int)

/-- The rank component of the square `k` steps from `src` along `d`. -/
def ray_rank (src : TilePos) (d : Int × Int) (k : Nat) : Int :=
  (src.rank : Int) + d.2 * (k : Int)

/-- The square `k` steps from `src` along `d`, as a coordinate (meaningful
when `ray_on_board` holds). -/
def ray_tile (src : TilePos) (d : Int × Int) (k : Nat) : TilePos :=
  TilePos.mk (ray_file src d k).toNat (ray_rank src d k).toNat

/-- The square `k` steps from `src` along `d` is on the board. -/
def ray_on_board (src : TilePos) (d : Int × Int) (k : Nat) : Prop :=
  0 ≤ ray_file src d k ∧ ray_file src d k < (BOARD_SIZE : Int) ∧
  0 ≤ ray_rank src d k ∧ ray_rank src d k < (BOARD_SIZE : Int)

instance (src : TilePos) (d : Int × Int) (k : Nat) :
    Decidable (ray_on_board src d k) := by
  unfold ray_on_board; infer_instance

/-! Concrete boards used by the counterexamples and witnesses below. -/

/-- A board holding a single white pawn at (file 1, rank 0). -/
def board_white_pawn_rank0 : Board :=
  initial_board.set_piece (TilePos.mk 1 0) Piece.WPawn

/-- A board holding a single black pawn at (file 1, rank 4). -/
def board_black_pawn_file1 : Board :=
  initial_board.set_piece (TilePos.mk 1 4) Piece.BPawn

/-- A board with a white pawn on its starting file (1, 3) and a black pawn
blocking the single-step square (2, 3). -/
def board_double_step_blocked : Board :=
  (initial_board.set_piece (TilePos.mk 1 3) Piece.WPawn).set_piece
    (TilePos.mk 2 3) Piece.BPawn

/-- A board with a white pawn on its starting file (1, 4) and nothing ahead. -/
def board_double_step_clear : Board :=
  initial_board.set_piece (TilePos.mk 1 4) Piece.WPawn

/-- A board with a black pawn at (4, 4) and the en-passant target set to the
adjacent square (3, 3). -/
def board_black_en_passant : Board :=
  { initial_board.set_piece (TilePos.mk 4 4) Piece.BPawn with
    en_passant_on_last_move := some (TilePos.mk 3 3) }

/-- A board with a white pawn at (4, 4) and the en-passant target set to
(3, 3), one file BEHIND the pawn. -/
def board_backward_en_passant : Board :=
  { initial_board.set_piece (TilePos.mk 4 4) Piece.WPawn with
    en_passant_on_last_move := some (TilePos.mk 3 3) }

/-- A board with a white pawn at (4, 4) and the en-passant target set to
(5, 5), one file AHEAD of the pawn (the standard en-passant geometry). -/
def board_forward_en_passant : Board :=
  { initial_board.set_piece (TilePos.mk 4 4) Piece.WPawn with
    en_passant_on_last_move := some (TilePos.mk 5 5) }

/-- A board with a single white pawn at (4, 4). -/
def board_white_pawn_center : Board :=
  initial_board.set_piece (TilePos.mk 4 4) Piece.WPawn

/-- A board with a white rook at (3, 3) and a black pawn at (6, 3). -/
def board_rook_blocked : Board :=
  (initial_board.set_piece (TilePos.mk 3 3) Piece.WRook).set_piece
    (TilePos.mk 6 3) Piece.BPawn

/-! Helper lemmas about the pawn-move blocks. -/

theorem usize_try_from_eq_some {z : Int} {n : Nat} :
    usize_try_from z = some n ↔ 0 ≤ z ∧ z.toNat = n := by
  unfold usize_try_from
  split <;> simp_all

theorem get_vertical_dir_cases (p : Piece) :
    get_vertical_dir p = 1 ∨ get_vertical_dir p = -1 := by
  unfold get_vertical_dir
  cases p.is_white <;> simp

theorem get_vertical_dir_ne_zero (p : Piece) : get_vertical_dir p ≠ 0 := by
  rcases get_vertical_dir_cases p with h | h <;> rw [h] <;> decide

theorem pawn_diag_capture_some_nonneg {b : Board} {piece : Piece} {nv nh : Int}
    {l : List TilePos} (h : pawn_diag_capture b piece nv nh = some l) :
    0 ≤ nv ∧ 0 ≤ nh := by
  unfold pawn_diag_capture at h
  split at h
  · rename_i f r hf hr
    exact ⟨(usize_try_from_eq_some.mp hf).1, (usize_try_from_eq_some.mp hr).1⟩
  · exact absurd h (by simp)

theorem pawn_diag_capture_subset {b : Board} {piece : Piece} {nv nh : Int}
    {l : List TilePos} (h : pawn_diag_capture b piece nv nh = some l) :
    ∀ q ∈ l, q = TilePos.mk nv.toNat nh.toNat := by
  unfold pawn_diag_capture at h
  split at h
  · rename_i f r hf hr
    obtain ⟨-, hf2⟩ := usize_try_from_eq_some.mp hf
    obtain ⟨-, hr2⟩ := usize_try_from_eq_some.mp hr
    subst hf2; subst hr2
    simp only [Option.some.injEq] at h
    subst h
    intro q hq
    split at hq
    · split at hq
      · rename_i heq
        split at hq <;> simp_all
      · simp_all
    · simp_all
  · exact absurd h (by simp)

theorem pawn_forward_block_mem_file {b : Board} {src : TilePos} {piece : Piece}
    {dir : Int} {l : List TilePos}
    (h : pawn_forward_block b src piece dir = some l) :
    ∀ q ∈ l, (q.file : Int) = (src.file : Int) + dir := by
  simp only [pawn_forward_block] at h
  split at h
  · rename_i hguard
    split at h
    · rename_i f hf
      obtain ⟨hnn, hf2⟩ := usize_try_from_eq_some.mp hf
      subst hf2
      split at h
      · rename_i d1 d2 hd1 hd2
        simp only [Option.some.injEq] at h
        subst h
        intro q hq
        simp only [List.mem_append] at hq
        rcases hq with hq | hq | hq
        · split at hq <;> simp_all [Int.toNat_of_nonneg hnn]
        · rw [pawn_diag_capture_subset hd1 q hq]
          simp [Int.toNat_of_nonneg hnn]
        · rw [pawn_diag_capture_subset hd2 q hq]
          simp [Int.toNat_of_nonneg hnn]
      · exact absurd h (by simp)
    · exact absurd h (by simp)
  · simp only [Option.some.injEq] at h
    subst h
    simp

theorem pawn_forward_block_single_mem {b : Board} {src : TilePos}
    {piece : Piece} {dir : Int} {l : List TilePos}
    (h : pawn_forward_block b src piece dir = some l) (p : TilePos)
    (hrank : p.rank = src.rank)
    (hfile : (p.file : Int) = (src.file : Int) + dir) :
    p ∈ l ↔
      (0 < (src.file : Int) + dir ∧ (src.file : Int) + dir < (BOARD_SIZE : Int) ∧
       b.get_piece p = Piece.None) := by
  simp only [pawn_forward_block] at h
  split at h
  · rename_i hguard
    split at h
    · rename_i f hf
      obtain ⟨hnn, hf2⟩ := usize_try_from_eq_some.mp hf
      subst hf2
      split at h
      · rename_i d1 d2 hd1 hd2
        simp only [Option.some.injEq] at h
        subst h
        have hpfile : p.file = ((src.file : Int) + dir).toNat := by omega
        have hp : p = TilePos.mk ((src.file : Int) + dir).toNat src.rank := by
          cases p; simp_all
        have hnot1 : p ∉ d1 := by
          intro hq
          have hq2 := pawn_diag_capture_subset hd1 p hq
          have hr1 : 0 ≤ (src.rank : Int) - 1 :=
            (pawn_diag_capture_some_nonneg hd1).2
          rw [hq2] at hrank
          simp only at hrank
          omega
        have hnot2 : p ∉ d2 := by
          intro hq
          have hq2 := pawn_diag_capture_subset hd2 p hq
          rw [hq2] at hrank
          simp only at hrank
          omega
        have hsingle :
            p ∈ (if b.get_piece (TilePos.mk ((src.file : Int) + dir).toNat
                    src.rank) = Piece.None then
                  [TilePos.mk ((src.file : Int) + dir).toNat src.rank]
                 else []) ↔ b.get_piece p = Piece.None := by
          rw [← hp]
          split <;> simp_all
        rw [List.mem_append, List.mem_append, hsingle]
        simp only [hnot1, hnot2, or_false, false_or]
        constructor
        · intro hempty
          exact ⟨hguard.1, hguard.2, hempty⟩
        · rintro ⟨-, -, hempty⟩
          exact hempty
      · exact absurd h (by simp)
    · exact absurd h (by simp)
  · rename_i hguard
    simp only [Option.some.injEq] at h
    subst h
    simp only [List.not_mem_nil, false_iff]
    rintro ⟨h1, h2, -⟩
    exact hguard ⟨h1, h2⟩

theorem pawn_diag_capture_mem_iff {b : Board} {piece : Piece} {nv nh : Int}
    {dl : List TilePos} (h : pawn_diag_capture b piece nv nh = some dl)
    (p : TilePos) :
    p ∈ dl ↔
      ((p.file : Int) = nv ∧ (p.rank : Int) = nh ∧
       0 < nh ∧ nh < (BOARD_SIZE : Int) ∧
       pawn_capture_players piece (b.get_piece p)) := by
  have hsub := pawn_diag_capture_subset h
  have hnn := pawn_diag_capture_some_nonneg h
  by_cases hp : p = TilePos.mk nv.toNat nh.toNat
  case neg =>
    constructor
    · intro hmem
      exact absurd (hsub p hmem) hp
    · rintro ⟨h1, h2, -, -, -⟩
      exfalso
      apply hp
      cases p with
      | mk pf pr =>
        simp only [TilePos.mk.injEq]
        simp only at h1 h2
        constructor <;> omega
  case pos =>
    subst hp
    unfold pawn_diag_capture at h
    split at h
    · rename_i f r hf hr
      obtain ⟨hnv, hf2⟩ := usize_try_from_eq_some.mp hf
      obtain ⟨hnh, hr2⟩ := usize_try_from_eq_some.mp hr
      subst hf2
      subst hr2
      simp only [Option.some.injEq] at h
      subst h
      simp only [Int.toNat_of_nonneg hnv, Int.toNat_of_nonneg hnh, true_and]
      unfold pawn_capture_players
      split
      · rename_i hg
        rcases hpp : piece.to_player with _ | pl <;>
          rcases hcp :
            (b.get_piece (TilePos.mk nv.toNat nh.toNat)).to_player with _ | cp
        · simp [hpp, hcp]
        · simp [hpp, hcp]
        · simp [hpp, hcp]
        · by_cases hplcp : pl = cp
          · subst hplcp
            simp [hpp, hcp]
          · simp only [hpp, hcp]
            simp [hg.1, hg.2, hplcp]
      · rename_i hg
        simp only [List.not_mem_nil, false_iff]
        rintro ⟨h3, h4, -⟩
        exact hg ⟨h3, h4⟩
    · exact absurd h (by simp)

theorem pawn_forward_block_mem_iff {b : Board} {src : TilePos} {piece : Piece}
    {dir : Int} {l : List TilePos}
    (h : pawn_forward_block b src piece dir = some l) (p : TilePos) :
    p ∈ l ↔
      (0 < (src.file : Int) + dir ∧ (src.file : Int) + dir < (BOARD_SIZE : Int) ∧
       (p.file : Int) = (src.file : Int) + dir ∧
       ((p.rank = src.rank ∧ b.get_piece p = Piece.None) ∨
        (((p.rank : Int) = (src.rank : Int) - 1 ∨
          (p.rank : Int) = (src.rank : Int) + 1) ∧
         0 < (p.rank : Int) ∧ (p.rank : Int) < (BOARD_SIZE : Int) ∧
         pawn_capture_players piece (b.get_piece p)))) := by
  simp only [pawn_forward_block] at h
  split at h
  · rename_i hguard
    split at h
    · rename_i f hf
      obtain ⟨hnn, hf2⟩ := usize_try_from_eq_some.mp hf
      subst hf2
      split at h
      · rename_i d1 d2 hd1 hd2
        simp only [Option.some.injEq] at h
        subst h
        have hm1 := pawn_diag_capture_mem_iff hd1 p
        have hm2 := pawn_diag_capture_mem_iff hd2 p
        have hs : p ∈ (if b.get_piece
              (TilePos.mk ((src.file : Int) + dir).toNat src.rank)
              = Piece.None then
              [TilePos.mk ((src.file : Int) + dir).toNat src.rank] else []) ↔
            ((p.file : Int) = (src.file : Int) + dir ∧ p.rank = src.rank ∧
             b.get_piece p = Piece.None) := by
          have hptile : ((p.file : Int) = (src.file : Int) + dir ∧
              p.rank = src.rank) →
              p = TilePos.mk ((src.file : Int) + dir).toNat src.rank := by
            rintro ⟨h1, h2⟩
            cases p with
            | mk pf pr =>
              simp only [TilePos.mk.injEq]
              simp only at h1 h2
              constructor <;> omega
          split
          · rename_i hemp
            simp only [List.mem_singleton]
            constructor
            · intro hpe
              subst hpe
              exact ⟨by simp [Int.toNat_of_nonneg hnn], rfl, hemp⟩
            · rintro ⟨h1, h2, -⟩
              exact hptile ⟨h1, h2⟩
          · rename_i hemp
            simp only [List.not_mem_nil, false_iff]
            rintro ⟨h1, h2, h3⟩
            apply hemp
            rw [← hptile ⟨h1, h2⟩]
            exact h3
        rw [List.mem_append, List.mem_append, hs, hm1, hm2]
        constructor
        · rintro (⟨h1, h2, h3⟩ | ⟨h1, h2, h3, h4, h5⟩ | ⟨h1, h2, h3, h4, h5⟩)
          · exact ⟨hguard.1, hguard.2, h1, Or.inl ⟨h2, h3⟩⟩
          · exact ⟨hguard.1, hguard.2, h1,
              Or.inr ⟨Or.inl h2, by omega, by omega, h5⟩⟩
          · exact ⟨hguard.1, hguard.2, h1,
              Or.inr ⟨Or.inr h2, by omega, by omega, h5⟩⟩
        · rintro ⟨-, -, hfile, (⟨h2, h3⟩ | ⟨hrk, h3, h4, h5⟩)⟩
          · exact Or.inl ⟨hfile, h2, h3⟩
          · rcases hrk with hrk | hrk
            · exact Or.inr (Or.inl ⟨hfile, hrk, by omega, by omega, h5⟩)
            · exact Or.inr (Or.inr ⟨hfile, hrk, by omega, by omega, h5⟩)
      · exact absurd h (by simp)
    · exact absurd h (by simp)
  · rename_i hguard
    simp only [Option.some.injEq] at h
    subst h
    simp only [List.not_mem_nil, false_iff]
    rintro ⟨h1, h2, -⟩
    exact hguard ⟨h1, h2⟩

theorem pawn_en_passant_mem (b : Board) (src : TilePos) (dir : Int)
    (q : TilePos) :
    q ∈ pawn_en_passant b src dir ↔
      (b.en_passant_on_last_move = some q ∧
       |(q.file : Int) - (src.file : Int)| = 1 ∧
       |(q.rank : Int) - (src.rank : Int)| = dir) := by
  cases hep : b.en_passant_on_last_move with
  | none => simp [pawn_en_passant, hep]
  | some passant_tile =>
    simp only [pawn_en_passant, hep]
    split
    · rename_i hcond
      simp only [List.mem_singleton, Option.some.injEq]
      constructor
      · intro hq
        subst hq
        exact ⟨rfl, hcond.1, hcond.2⟩
      · rintro ⟨hpt, -, -⟩
        exact hpt.symm
    · rename_i hcond
      simp only [List.not_mem_nil, false_iff, Option.some.injEq]
      rintro ⟨hpt, h1, h2⟩
      subst hpt
      exact hcond ⟨h1, h2⟩

theorem pawn_double_subset {b : Board} {src : TilePos} {piece : Piece}
    {dir : Int} {l : List TilePos} (h : pawn_double b src piece dir = some l) :
    ∀ q ∈ l, q.rank = src.rank ∧ (q.file : Int) = (src.file : Int) + 2 * dir := by
  unfold pawn_double at h
  split at h
  · split at h
    · rename_i f hf
      obtain ⟨hnn, hf2⟩ := usize_try_from_eq_some.mp hf
      subst hf2
      simp only [Option.some.injEq] at h
      subst h
      intro q hq
      split at hq <;> simp_all [Int.toNat_of_nonneg hnn]
    · exact absurd h (by simp)
  · simp only [Option.some.injEq] at h
    subst h
    simp

theorem pawn_double_mem {b : Board} {src : TilePos} {piece : Piece} {dir : Int}
    {l : List TilePos} (h : pawn_double b src piece dir = some l) (p : TilePos)
    (hrank : p.rank = src.rank)
    (hfile : (p.file : Int) = (src.file : Int) + 2 * dir) :
    p ∈ l ↔ (double_pawn_move_check piece src ∧ b.get_piece p = Piece.None) := by
  have hnn : 0 ≤ (src.file : Int) + 2 * dir := by
    rw [← hfile]; exact Int.natCast_nonneg p.file
  unfold pawn_double at h
  split at h
  · rename_i hcheck
    split at h
    · rename_i f hf
      obtain ⟨-, hf2⟩ := usize_try_from_eq_some.mp hf
      subst hf2
      simp only [Option.some.injEq] at h
      subst h
      have hpfile : p.file = ((src.file : Int) + 2 * dir).toNat := by omega
      have hp : p = TilePos.mk ((src.file : Int) + 2 * dir).toNat src.rank := by
        cases p; simp_all
      constructor
      · intro hmem
        split at hmem
        · rename_i hempty
          rw [List.mem_singleton] at hmem
          subst hmem
          exact ⟨hcheck, hempty⟩
        · exact absurd hmem (List.not_mem_nil p)
      · rintro ⟨-, hempty⟩
        rw [hp] at hempty
        rw [hp, if_pos hempty]
        exact List.mem_singleton.mpr rfl
    · rename_i hf
      unfold usize_try_from at hf
      rw [if_pos hnn] at hf
      exact absurd hf (by simp)
  · rename_i hcheck
    simp only [Option.some.injEq] at h
    subst h
    simp only [List.not_mem_nil, false_iff]
    rintro ⟨h1, -⟩
    exact hcheck h1

theorem get_pawn_moves_decomp {b : Board} {src : TilePos}
    {moves : List TilePos} (h : get_pawn_moves b src = some moves) :
    ∃ fwd dbl,
      pawn_forward_block b src (b.get_piece src)
        (get_vertical_dir (b.get_piece src)) = some fwd ∧
      pawn_double b src (b.get_piece src)
        (get_vertical_dir (b.get_piece src)) = some dbl ∧
      moves = fwd ++ pawn_en_passant b src (get_vertical_dir (b.get_piece src))
        ++ dbl := by
  simp only [get_pawn_moves] at h
  split at h
  · exact absurd h (by simp)
  · rename_i fwd hfwd
    split at h
    · exact absurd h (by simp)
    · rename_i dbl hdbl
      simp only [Option.some.injEq] at h
      exact ⟨fwd, dbl, hfwd, hdbl, h.symm⟩

set_option maxRecDepth 8000

/-- Claim C1: the spec says the en-passant section of a FEN string is parsed
by reading the current and the following character as the two-character token
("e3"), converting it to a Coordinate when the file letter is in `a`-`h` and
the rank digit in `0`-`8`, and failing with an error naming the token
otherwise.  The code instead skips `chr_index - 1` characters, so it reads the
PREVIOUS character and the current one; the previous character at the start of
section 3 is always the space that ended section 2, so the token is never a
valid square and `from_fen` rejects every FEN string with a nonempty
en-passant field.  On the position after 1.e4 (en-passant target "e3") the
parser fails naming the token `' '`, `'e'`, while a FEN string with `-` in the
en-passant field still parses: the success branch of the claim is dead code. -/
theorem fen_en_passant_reads_previous_char :
    from_fen "rnbqkbnr/pppppppp/8/8/4P3/8/PPPP1PPP/RNBQKBNR b KQkq e3 0 1"
      = Except.error (FenError.invalidEnPassant ' ' 'e') ∧
    ∃ b, from_fen "rnbqkbnr/pppppppp/8/8/8/8/PPPPPPPP/RNBQKBNR w KQkq - 0 1"
      = Except.ok b := by
  exact ⟨rfl, ⟨_, rfl⟩⟩

/-- Claim C10: the numeric conversion from `Piece` to `usize` is defined
exactly on the 12 non-empty piece values, where it is a bijection onto
`0..=11` inverted by the conversion from `usize` to `Piece`; for `Piece::None`
the conversion is undefined (the subtraction `0 - 1` underflows), so
converting the empty piece to an index is not total. -/
theorem piece_usize_conversion_bijection :
    pieceToUsize Piece.None = none ∧
    (∀ p : Piece, (pieceToUsize p).map usizeToPiece =
      if p = Piece.None then none else some p) ∧
    (∀ p : Piece, (pieceToUsize p).getD 0 < 12) ∧
    (∀ i : Fin 12, pieceToUsize (usizeToPiece i.val) = some i.val) := by
  refine ⟨rfl, ?_, ?_, ?_⟩
  · intro p; cases p <;> rfl
  · intro p; cases p <;> decide
  · decide

/-- Claim C2: the spec requires every move-generation path to perform the
on-board range check before constructing a Coordinate, so `get_pawn_moves`
should never abort.  The diagonal-capture loop of the code instead converts
`rank + k` with `usize::try_from(..).unwrap()` BEFORE its range check; for a
pawn at rank 0 (with an in-range forward square) the `k = -1` iteration
converts `-1` and panics.  Here: a white pawn at (file 1, rank 0) makes
`get_pawn_moves` abort (`none` models the panic). -/
theorem pawn_diag_unchecked_conversion_aborts :
    board_white_pawn_rank0.get_piece (TilePos.mk 1 0) = Piece.WPawn ∧
    get_pawn_moves board_white_pawn_rank0 (TilePos.mk 1 0) = none := by
  decide

/-- Claim C3, counterexample: a white pawn at (1, 3) whose single-step square
(2, 3) is occupied by a black pawn still gets the double step (3, 3) in its
move list, because the code only tests the double-step destination for
emptiness — refuting "both the single-step destination and the double-step
destination are empty". -/
theorem pawn_double_step_claim_cex :
    board_double_step_blocked.get_piece (TilePos.mk 1 3) = Piece.WPawn ∧
    board_double_step_blocked.get_piece (TilePos.mk 2 3) = Piece.BPawn ∧
    get_pawn_moves board_double_step_blocked (TilePos.mk 1 3)
      = some [TilePos.mk 3 3] := by
  decide

/-- Claim C3 (amended): for every Position whose pawn-move generation at
`src` returns a result, the double-step square `(file + 2 * dir, rank)` is in
the result iff the source file index equals the color-specific starting rank
(1 for white, `BOARD_SIZE - 2` for black) and the DOUBLE-STEP destination is
empty; the single-step destination is not consulted. -/
theorem pawn_double_step_characterization (b : Board) (src : TilePos)
    (moves : List TilePos) (h : get_pawn_moves b src = some moves)
    (p : TilePos) (hrank : p.rank = src.rank)
    (hfile : (p.file : Int) =
      (src.file : Int) + 2 * get_vertical_dir (b.get_piece src)) :
    p ∈ moves ↔
      (double_pawn_move_check (b.get_piece src) src ∧
       b.get_piece p = Piece.None) := by
  obtain ⟨fwd, dbl, hfwd, hdbl, hmoves⟩ := get_pawn_moves_decomp h
  subst hmoves
  have hdz := get_vertical_dir_ne_zero (b.get_piece src)
  have hnf : p ∉ fwd := by
    intro hq
    have hq2 := pawn_forward_block_mem_file hfwd p hq
    omega
  have hne : p ∉ pawn_en_passant b src (get_vertical_dir (b.get_piece src)) := by
    rw [pawn_en_passant_mem]
    rintro ⟨-, -, habs⟩
    rw [hrank] at habs
    simp only [sub_self, abs_zero] at habs
    exact hdz habs.symm
  simp only [List.mem_append, hnf, hne, or_false, false_or]
  exact pawn_double_mem hdbl p hrank hfile

/-- Witness for C3 (amended): a white pawn at (1, 4) with a clear path gets
exactly the single and double step; the double step (3, 4) is in the list by
the characterization, its gate discharged concretely. -/
theorem pawn_double_step_characterization_witness :
    get_pawn_moves board_double_step_clear (TilePos.mk 1 4)
      = some [TilePos.mk 2 4, TilePos.mk 3 4] ∧
    TilePos.mk 3 4 ∈ [TilePos.mk 2 4, TilePos.mk 3 4] := by
  refine ⟨by decide, ?_⟩
  exact (pawn_double_step_characterization board_double_step_clear
    (TilePos.mk 1 4) [TilePos.mk 2 4, TilePos.mk 3 4] (by decide)
    (TilePos.mk 3 4) rfl (by decide)).mpr (by decide)

/-- Claim C4, counterexample: a black pawn at (4, 4) with the en-passant
target at (3, 3) — the eligible color, adjacent by one, differing by the
pawn's direction — does NOT get the target in its move list: the code
compares `rank_diff.abs()` (never negative) with `vertical_dir`, which is
`-1` for black, so the en-passant branch never fires for black pawns. -/
theorem pawn_en_passant_claim_cex :
    board_black_en_passant.en_passant_on_last_move = some (TilePos.mk 3 3) ∧
    board_black_en_passant.get_piece (TilePos.mk 4 4) = Piece.BPawn ∧
    get_pawn_moves board_black_en_passant (TilePos.mk 4 4)
      = some [TilePos.mk 3 4] ∧
    TilePos.mk 3 3 ∉ [TilePos.mk 3 4] := by
  decide

/-- Claim C4 (amended): for every Position whose pawn-move generation at
`src` returns a result and whose en-passant target is `pt`:
(i) whenever the absolute file difference to the source is exactly 1 and the
ABSOLUTE rank difference equals `dir`, the target is in the result — so a
white pawn receives it for a target one file ahead or one file behind alike,
while the en-passant test itself never fires for a black pawn (`dir = -1`,
and an absolute value is never negative); and
(ii) provided the target square is neither the single-step square
`(file + dir, rank)` nor the double-step square `(file + 2*dir, rank)`, the
target is in the result iff that condition holds OR the target is an
ordinary diagonal-capture destination `(file + dir, rank ± 1)` (rank
strictly inside the board) occupied by a piece of the opposing player. -/
theorem pawn_en_passant_characterization (b : Board) (src : TilePos)
    (moves : List TilePos) (h : get_pawn_moves b src = some moves)
    (pt : TilePos) (hep : b.en_passant_on_last_move = some pt) :
    ((|(pt.file : Int) - (src.file : Int)| = 1 ∧
      |(pt.rank : Int) - (src.rank : Int)| =
        get_vertical_dir (b.get_piece src)) → pt ∈ moves) ∧
    (¬(pt.rank = src.rank ∧ (pt.file : Int) =
        (src.file : Int) + get_vertical_dir (b.get_piece src)) →
     ¬(pt.rank = src.rank ∧ (pt.file : Int) =
        (src.file : Int) + 2 * get_vertical_dir (b.get_piece src)) →
     (pt ∈ moves ↔
       ((|(pt.file : Int) - (src.file : Int)| = 1 ∧
         |(pt.rank : Int) - (src.rank : Int)| =
           get_vertical_dir (b.get_piece src)) ∨
        (0 < (src.file : Int) + get_vertical_dir (b.get_piece src) ∧
         (src.file : Int) + get_vertical_dir (b.get_piece src) <
           (BOARD_SIZE : Int) ∧
         (pt.file : Int) =
           (src.file : Int) + get_vertical_dir (b.get_piece src) ∧
         ((pt.rank : Int) = (src.rank : Int) - 1 ∨
          (pt.rank : Int) = (src.rank : Int) + 1) ∧
         0 < (pt.rank : Int) ∧ (pt.rank : Int) < (BOARD_SIZE : Int) ∧
         pawn_capture_players (b.get_piece src) (b.get_piece pt))))) := by
  obtain ⟨fwd, dbl, hfwd, hdbl, hmoves⟩ := get_pawn_moves_decomp h
  subst hmoves
  constructor
  · intro hE
    have hpe : pt ∈ pawn_en_passant b src (get_vertical_dir (b.get_piece src)) :=
      (pawn_en_passant_mem b src _ pt).mpr ⟨hep, hE.1, hE.2⟩
    simp only [List.mem_append]
    exact Or.inl (Or.inr hpe)
  · intro hns hnd2
    have hnd : pt ∉ dbl := by
      intro hq
      obtain ⟨hq1, hq2⟩ := pawn_double_subset hdbl pt hq
      exact hnd2 ⟨hq1, hq2⟩
    have hfwd_iff := pawn_forward_block_mem_iff hfwd pt
    have hep_iff := pawn_en_passant_mem b src
      (get_vertical_dir (b.get_piece src)) pt
    simp only [List.mem_append, List.mem_append, hnd, or_false]
    rw [hfwd_iff, hep_iff]
    constructor
    · rintro (⟨hg1, hg2, hfile, (⟨hr, he⟩ | hdiag)⟩ | ⟨-, hE1, hE2⟩)
      · exact absurd ⟨hr, hfile⟩ hns
      · exact Or.inr ⟨hg1, hg2, hfile, hdiag⟩
      · exact Or.inl ⟨hE1, hE2⟩
    · rintro (hE | ⟨hg1, hg2, hfile, hdiag⟩)
      · exact Or.inr ⟨hep, hE.1, hE.2⟩
      · exact Or.inl ⟨hg1, hg2, hfile, Or.inr hdiag⟩

/-- Witness for C4 (amended): a white pawn at (4, 4) with the target one
file AHEAD at (5, 5) includes it by part (i); a white pawn at (4, 4) with
the target one file BEHIND at (3, 3) includes it by the iff of part (ii),
whose square-exclusion hypotheses and adjacency condition are discharged
concretely. -/
theorem pawn_en_passant_characterization_witness :
    (get_pawn_moves board_forward_en_passant (TilePos.mk 4 4)
       = some [TilePos.mk 5 4, TilePos.mk 5 5] ∧
     TilePos.mk 5 5 ∈ [TilePos.mk 5 4, TilePos.mk 5 5]) ∧
    (get_pawn_moves board_backward_en_passant (TilePos.mk 4 4)
       = some [TilePos.mk 5 4, TilePos.mk 3 3] ∧
     TilePos.mk 3 3 ∈ [TilePos.mk 5 4, TilePos.mk 3 3]) := by
  refine ⟨⟨by decide, ?_⟩, ⟨by decide, ?_⟩⟩
  · exact (pawn_en_passant_characterization board_forward_en_passant
      (TilePos.mk 4 4) [TilePos.mk 5 4, TilePos.mk 5 5] (by decide)
      (TilePos.mk 5 5) (by decide)).1 (by decide)
  · exact ((pawn_en_passant_characterization board_backward_en_passant
      (TilePos.mk 4 4) [TilePos.mk 5 4, TilePos.mk 3 3] (by decide)
      (TilePos.mk 3 3) (by decide)).2 (by decide) (by decide)).mpr
      (Or.inl (by decide))

/-- Claim C5, counterexample: a black pawn at (1, 4) has its single forward
step (0, 4) on-board (both components in range) and empty, yet its move list
is empty: the code guards the forward block with `file + dir > 0`, strictly,
so a step onto file 0 is never generated — refuting the "iff" with
"on-board". -/
theorem pawn_single_step_claim_cex :
    board_black_pawn_file1.get_piece (TilePos.mk 1 4) = Piece.BPawn ∧
    on_board (TilePos.mk 0 4) ∧
    board_black_pawn_file1.get_piece (TilePos.mk 0 4) = Piece.None ∧
    get_pawn_moves board_black_pawn_file1 (TilePos.mk 1 4) = some [] := by
  decide

/-- Claim C5 (amended): for every Position whose pawn-move generation at
`src` returns a result, the single forward step `(file + dir, rank)` is in
the result iff `0 < file + dir` (STRICTLY — destination file 0 is excluded),
`file + dir < BOARD_SIZE`, and the destination square is empty. -/
theorem pawn_single_step_characterization (b : Board) (src : TilePos)
    (moves : List TilePos) (h : get_pawn_moves b src = some moves)
    (p : TilePos) (hrank : p.rank = src.rank)
    (hfile : (p.file : Int) =
      (src.file : Int) + get_vertical_dir (b.get_piece src)) :
    p ∈ moves ↔
      (0 < (src.file : Int) + get_vertical_dir (b.get_piece src) ∧
       (src.file : Int) + get_vertical_dir (b.get_piece src) <
         (BOARD_SIZE : Int) ∧
       b.get_piece p = Piece.None) := by
  obtain ⟨fwd, dbl, hfwd, hdbl, hmoves⟩ := get_pawn_moves_decomp h
  subst hmoves
  have hdz := get_vertical_dir_ne_zero (b.get_piece src)
  have hne : p ∉ pawn_en_passant b src (get_vertical_dir (b.get_piece src)) := by
    rw [pawn_en_passant_mem]
    rintro ⟨-, -, habs⟩
    rw [hrank] at habs
    simp only [sub_self, abs_zero] at habs
    exact hdz habs.symm
  have hnd : p ∉ dbl := by
    intro hq
    have hq2 := (pawn_double_subset hdbl p hq).2
    omega
  simp only [List.mem_append, hne, hnd, or_false, false_or]
  exact pawn_forward_block_single_mem hfwd p hrank hfile

/-- Witness for C5 (amended): a white pawn at (4, 4) includes its single
forward step (5, 4), the characterization's conditions discharged
concretely. -/
theorem pawn_single_step_characterization_witness :
    get_pawn_moves board_white_pawn_center (TilePos.mk 4 4)
      = some [TilePos.mk 5 4] ∧
    TilePos.mk 5 4 ∈ [TilePos.mk 5 4] := by
  refine ⟨by decide, ?_⟩
  exact (pawn_single_step_characterization board_white_pawn_center
    (TilePos.mk 4 4) [TilePos.mk 5 4] (by decide)
    (TilePos.mk 5 4) rfl (by decide)).mpr (by decide)

/-! Lemmas about `set_piece` / `get_piece` / `move_piece`. -/

theorem set_piece_positions (b : Board) (t : TilePos) (p : Piece) (q : Piece)
    (u : TilePos) :
    (b.set_piece t p).positions q u =
      if u = t ∧ q ∈ PIECES then (q == p) else b.positions q u := by
  by_cases hu : u = t <;>
    cases q <;>
      simp [Board.set_piece, PIECES, BitBoards.set_bit_at, hu]

theorem get_piece_set_piece_same (b : Board) (t : TilePos) (p : Piece)
    (hp : p ≠ Piece.None) :
    (b.set_piece t p).get_piece t = p := by
  unfold Board.get_piece BitBoards.get_bit_at
  simp only [set_piece_positions]
  cases p <;> simp [PIECES]

theorem get_piece_set_piece_none (b : Board) (t : TilePos) :
    (b.set_piece t Piece.None).get_piece t = Piece.None := by
  unfold Board.get_piece BitBoards.get_bit_at
  simp only [set_piece_positions]
  simp [PIECES]

theorem get_piece_set_piece_other (b : Board) (t : TilePos) (p : Piece)
    (u : TilePos) (h : u ≠ t) :
    (b.set_piece t p).get_piece u = b.get_piece u := by
  unfold Board.get_piece BitBoards.get_bit_at
  simp only [set_piece_positions, h, false_and, if_false]

/-- Claim C6: for every Position and every pair of distinct on-board
coordinates, after `move_piece` the piece at `to` equals the piece that was
at `from` before the call, and the piece at `from` is empty. -/
theorem move_piece_transfers (b : Board) (m : PieceMove)
    (hne : m.from_pos ≠ m.to_pos) (_h1 : on_board m.from_pos)
    (_h2 : on_board m.to_pos) :
    (b.move_piece m).get_piece m.to_pos = b.get_piece m.from_pos ∧
    (b.move_piece m).get_piece m.from_pos = Piece.None := by
  constructor
  · show ((b.set_piece m.from_pos Piece.None).set_piece m.to_pos
      (b.get_piece m.from_pos)).get_piece m.to_pos = _
    by_cases hmoved : b.get_piece m.from_pos = Piece.None
    · rw [hmoved]
      exact get_piece_set_piece_none _ _
    · exact get_piece_set_piece_same _ _ _ hmoved
  · show ((b.set_piece m.from_pos Piece.None).set_piece m.to_pos
      (b.get_piece m.from_pos)).get_piece m.from_pos = _
    rw [get_piece_set_piece_other _ _ _ _ hne]
    exact get_piece_set_piece_none _ _

/-- Witness for C6: moving the white pawn of `board_white_pawn_center` from
(4, 4) to (5, 4). -/
theorem move_piece_transfers_witness :
    (board_white_pawn_center.move_piece
      (PieceMove.mk (TilePos.mk 4 4) (TilePos.mk 5 4))).get_piece
        (TilePos.mk 5 4)
      = board_white_pawn_center.get_piece (TilePos.mk 4 4) ∧
    (board_white_pawn_center.move_piece
      (PieceMove.mk (TilePos.mk 4 4) (TilePos.mk 5 4))).get_piece
        (TilePos.mk 4 4)
      = Piece.None :=
  move_piece_transfers board_white_pawn_center
    (PieceMove.mk (TilePos.mk 4 4) (TilePos.mk 5 4))
    (by decide) (by decide) (by decide)

/-- Claim C7: `move_piece` changes only the occupancy sets and the per-square
entity table: the active player, both castling-rights pairs, the en-passant
target, the half-move and full-move counters, and the move history are
unchanged. -/
theorem move_piece_frame (b : Board) (m : PieceMove) :
    (b.move_piece m).player = b.player ∧
    (b.move_piece m).castling_rights = b.castling_rights ∧
    (b.move_piece m).en_passant_on_last_move = b.en_passant_on_last_move ∧
    (b.move_piece m).half_move_counter = b.half_move_counter ∧
    (b.move_piece m).full_move_counter = b.full_move_counter ∧
    (b.move_piece m).move_history = b.move_history :=
  ⟨rfl, rfl, rfl, rfl, rfl, rfl⟩

/-- Claim C8: for every on-board coordinate and non-empty piece kind,
`set_piece` followed by `get_piece` at that coordinate returns that kind, and
after the call every other of the 12 occupancy sets has the bit at that
coordinate false (a square holds at most one piece). -/
theorem set_piece_get_piece_roundtrip (b : Board) (t : TilePos) (p : Piece)
    (_ht : on_board t) (hp : p ≠ Piece.None) :
    (b.set_piece t p).get_piece t = p ∧
    ∀ q ∈ PIECES, q ≠ p →
      BitBoards.get_bit_at (b.set_piece t p).positions q t = false := by
  refine ⟨get_piece_set_piece_same b t p hp, ?_⟩
  intro q hq hqp
  rw [BitBoards.get_bit_at, set_piece_positions]
  simp [hq, hqp]

/-- Witness for C8: placing a white queen on (0, 0) of the empty board. -/
theorem set_piece_get_piece_roundtrip_witness :
    (initial_board.set_piece (TilePos.mk 0 0) Piece.WQueen).get_piece
      (TilePos.mk 0 0) = Piece.WQueen ∧
    ∀ q ∈ PIECES, q ≠ Piece.WQueen →
      BitBoards.get_bit_at
        (initial_board.set_piece (TilePos.mk 0 0) Piece.WQueen).positions
        q (TilePos.mk 0 0) = false :=
  set_piece_get_piece_roundtrip initial_board (TilePos.mk 0 0) Piece.WQueen
    (by decide) (by decide)

/-! Lemmas about the sliding-move loop. -/

theorem dir_loop_cons (b : Board) (src : TilePos) (d : Int × Int) (k : Nat)
    (ks : List Nat) :
    dir_loop b src d (k :: ks) =
      if ray_on_board src d k then
        (if b.get_piece (ray_tile src d k) ≠ Piece.None then
          (if (b.get_piece (ray_tile src d k)).to_player ≠
              (b.get_piece src).to_player
           then [ray_tile src d k] else [])
         else ray_tile src d k :: dir_loop b src d ks)
      else dir_loop b src d ks := by
  simp only [dir_loop, ray_on_board, ray_file, ray_rank, ray_tile]

theorem dir_loop_empty (b : Board) (src : TilePos) (d : Int × Int) :
    ∀ (n k : Nat),
      (∀ j, k ≤ j → j < k + n → ray_on_board src d j →
        b.get_piece (ray_tile src d j) = Piece.None) →
      dir_loop b src d (List.range' k n) =
        ((List.range' k n).filter
          (fun j => decide (ray_on_board src d j))).map (ray_tile src d) := by
  intro n
  induction n with
  | zero => intro k _; rfl
  | succ n ih =>
    intro k hemp
    rw [List.range'_succ, dir_loop_cons]
    by_cases hob : ray_on_board src d k
    · have hemp0 : b.get_piece (ray_tile src d k) = Piece.None :=
        hemp k le_rfl (by omega) hob
      rw [if_pos hob, if_neg (fun hc => hc hemp0),
        List.filter_cons_of_pos (by simpa using hob), List.map_cons,
        ih (k + 1) (fun j h1 h2 h3 => hemp j (by omega) (by omega) h3)]
    · rw [if_neg hob, List.filter_cons_of_neg (by simpa using hob)]
      exact ih (k + 1) (fun j h1 h2 h3 => hemp j (by omega) (by omega) h3)

theorem dir_loop_blocker (b : Board) (src : TilePos) (d : Int × Int) (K : Nat)
    (hK : ray_on_board src d K)
    (hcap : b.get_piece (ray_tile src d K) ≠ Piece.None) :
    ∀ (n k : Nat), k ≤ K → K < k + n →
      (∀ j, k ≤ j → j < K → ray_on_board src d j ∧
        b.get_piece (ray_tile src d j) = Piece.None) →
      dir_loop b src d (List.range' k n) =
        ((List.range' k (K - k)).map (ray_tile src d)) ++
          (if (b.get_piece (ray_tile src d K)).to_player ≠
              (b.get_piece src).to_player
           then [ray_tile src d K] else []) := by
  intro n
  induction n with
  | zero => intro k h1 h2 _; omega
  | succ n ih =>
    intro k hkK hKn hemp
    rw [List.range'_succ, dir_loop_cons]
    by_cases hkeq : k = K
    · subst hkeq
      rw [if_pos hK, if_pos hcap, Nat.sub_self, List.range'_zero, List.map_nil,
        List.nil_append]
    · have hkK2 : k < K := by omega
      obtain ⟨hobk, hempk⟩ := hemp k le_rfl hkK2
      rw [if_pos hobk, if_neg (fun hc => hc hempk),
        ih (k + 1) (by omega) (by omega) (fun j h1 h2 => hemp j (by omega) h2)]
      have hKk : K - k = (K - (k + 1)) + 1 := by omega
      rw [hKk, List.range'_succ, List.map_cons, List.cons_append]

/-- Claim C9: sliding generation casts each direction of the piece's
direction set outward (the per-direction results concatenated in order); on
an otherwise empty ray it returns exactly the on-board squares along the
direction out to the board edge; an OPPOSING piece at distance K (squares
before it empty and on-board) truncates the ray to include the square at
distance K and exclude everything beyond; a SAME-color piece at distance K
truncates the ray to exclude the square at distance K and everything
beyond. -/
theorem sliding_ray_truncation (b : Board) (src : TilePos) (d : Int × Int)
    (_hpiece : b.get_piece src ≠ Piece.None) :
    (∀ dirs, get_moves_in_dir b src dirs
        = (dirs.map (fun d2 => moves_in_one_dir b src d2)).flatten) ∧
    ((∀ j, 1 ≤ j → j ≤ BOARD_SIZE - 1 → ray_on_board src d j →
        b.get_piece (ray_tile src d j) = Piece.None) →
      moves_in_one_dir b src d =
        ((List.range' 1 (BOARD_SIZE - 1)).filter
          (fun j => decide (ray_on_board src d j))).map (ray_tile src d)) ∧
    (∀ K, 1 ≤ K → K ≤ BOARD_SIZE - 1 → ray_on_board src d K →
      (∀ j, 1 ≤ j → j < K → ray_on_board src d j ∧
        b.get_piece (ray_tile src d j) = Piece.None) →
      b.get_piece (ray_tile src d K) ≠ Piece.None →
      (((b.get_piece (ray_tile src d K)).to_player ≠
          (b.get_piece src).to_player →
        moves_in_one_dir b src d =
          ((List.range' 1 (K - 1)).map (ray_tile src d)) ++
            [ray_tile src d K]) ∧
       ((b.get_piece (ray_tile src d K)).to_player =
          (b.get_piece src).to_player →
        moves_in_one_dir b src d =
          (List.range' 1 (K - 1)).map (ray_tile src d)))) := by
  refine ⟨fun dirs => rfl, ?_, ?_⟩
  · intro hemp
    exact dir_loop_empty b src d (BOARD_SIZE - 1) 1
      (fun j h1 h2 h3 => hemp j h1 (by omega) h3)
  · intro K hK1 hK2 hob hemp hcap
    have hmain := dir_loop_blocker b src d K hob hcap (BOARD_SIZE - 1) 1 hK1
      (by omega) (fun j h1 h2 => hemp j h1 h2)
    constructor
    · intro hopp
      rw [moves_in_one_dir, hmain, if_pos hopp]
    · intro hsame
      rw [moves_in_one_dir, hmain, if_neg (fun hc => hc hsame),
        List.append_nil]

/-- Witness for C9: a white rook at (3, 3) looking along direction (1, 0)
with a black pawn three steps away at (6, 3): the ray is the two empty
squares plus the capture square. -/
theorem sliding_ray_truncation_witness :
    moves_in_one_dir board_rook_blocked (TilePos.mk 3 3) (1, 0)
      = [TilePos.mk 4 3, TilePos.mk 5 3, TilePos.mk 6 3] := by
  have h := ((sliding_ray_truncation board_rook_blocked (TilePos.mk 3 3)
    (1, 0) (by decide)).2.2 3 (by decide) (by decide) (by decide)
    (fun j h1 h2 => by interval_cases j <;> exact ⟨by decide, by decide⟩)
    (by decide)).1 (by decide)
  exact h.trans (by decide)
